import Mathlib

/-!
Verification of unity-git-hooks: a staged-change integrity checker for Unity
asset/metadata pairing (spec sections 3, 4, 6) together with the hook
installer `scripts/install-hooks.py`.

The pre-commit checker script itself is not part of the shipped sources
(only its installer and its test suite are), so the checker is modelled
from the spec: paths are strings, a working tree is the list of file paths
present after the staged changes are applied, and the checker is a pure
function from the staged-change list and that tree to a list of violations,
exactly as section 9 of the spec prescribes.

The installer is embedded from `scripts/install-hooks.py` over an explicit
filesystem state (an association list of file contents, a list of existing
directories, and an association list of permission modes).
-/

namespace UnityGitHooks

/-! ## Path utilities (character-list level, shared by checker and installer) -/

/-- Splits a character list at every `'/'`, Python `str.split("/")` style:
the result is always non-empty and empty segments are kept. -/
def splitPath : List Char → List (List Char)
  | [] => [[]]
  | c :: cs =>
    if c = '/' then [] :: splitPath cs
    else
      match splitPath cs with
      | [] => [[c]]
      | s :: ss => (c :: s) :: ss

/-- A path segment is hidden when its first character is a dot. -/
def segHidden : List Char → Bool
  | [] => false
  | c :: _ => c = '.'

/-- Whether `n` occurs as a contiguous substring of the second list. -/
def hasSub (n : List Char) : List Char → Bool
  | [] => n.isEmpty
  | c :: cs => n.isPrefixOf (c :: cs) || hasSub n cs

/-- Whether `needle` occurs as a contiguous substring of `hay`
(Python's `needle in hay` on strings). -/
def containsSub (needle hay : String) : Bool := hasSub needle.data hay.data

/-! ## Checker data model (modelled from the spec) -/

/-- Modelled from the spec: the fixed metadata suffix (section 3). -/
def metaSuffix : String := ".meta"

/-- Modelled from the spec: the default asset root directory (section 6,
Configuration; the test repository uses `Assets`). -/
def assetRoot : String := "Assets"

/-- Modelled from the spec: path classification categories (section 3). -/
inductive Category
  | Content
  | Metadata
  | Ignored
deriving DecidableEq, Repr

/-- Modelled from the spec: staged change kinds (section 3); a rename is
reported as delete-of-old-path plus add-of-new-path (section 4.2). -/
inductive ChangeKind
  | Added
  | Modified
  | Deleted
deriving DecidableEq, Repr

/-- Modelled from the spec: one staged change (section 3). -/
structure StagedChange where
  path : String
  kind : ChangeKind
deriving DecidableEq, Repr

/-- Modelled from the spec: violation kinds (section 3). -/
inductive ViolationKind
  | MissingMetadata
  | RedundantMetadata
deriving DecidableEq, Repr

/-- Modelled from the spec: one violation (section 3). -/
structure Violation where
  path : String
  kind : ViolationKind
deriving DecidableEq, Repr

/-- Whether any segment of the path begins with a dot (spec section 4.1,
rule 1). -/
def isHidden (p : String) : Bool := (splitPath p.data).any segHidden

/-- The final segment of a path. -/
def lastSeg (p : String) : List Char := (splitPath p.data).getLastD []

/-- Whether the path ends in the metadata suffix (spec section 4.1, rule 2). -/
def isMeta (p : String) : Bool := metaSuffix.data.isSuffixOf p.data

/-- Whether the path lies under the asset root (spec section 4.1, rule 3). -/
def underRoot (p : String) : Bool := (assetRoot ++ "/").data.isPrefixOf p.data

/-- The metadata path paired with a content path: the content path with the
fixed suffix appended (spec section 3). -/
def metaOf (c : String) : String := c ++ metaSuffix

/-- The content path named by a metadata path: the metadata path with the
fixed suffix stripped (spec section 4.1, rule 2). -/
def contentOf (m : String) : String :=
  ⟨m.data.take (m.data.length - metaSuffix.data.length)⟩

/-- Modelled from the spec: the path classifier (section 4.1). Rules in
priority order: hidden segment, metadata suffix, asset root, otherwise
ignored. -/
def classify (p : String) : Category :=
  if isHidden p then Category.Ignored
  else if isMeta p then Category.Metadata
  else if underRoot p then Category.Content
  else Category.Ignored

/-- Existence probe over the post-stage working tree, given as the list of
file paths present after the staged changes are applied: a path exists when
it is itself a file or is a directory containing some file (spec section 6,
collaborator interface). -/
def postTreeHas (tree : List String) (p : String) : Bool :=
  tree.any fun q => q == p || (p ++ "/").data.isPrefixOf q.data

/-- Whether a change kind stages new or changed content (spec section 4.3,
step 2). -/
def isAddOrMod : ChangeKind → Bool
  | ChangeKind.Added => true
  | ChangeKind.Modified => true
  | ChangeKind.Deleted => false

/-- Whether a change kind removes a path. -/
def isDeleted : ChangeKind → Bool
  | ChangeKind.Deleted => true
  | _ => false

/-- Whether the staged-change set removes the given path (spec section 4.3,
step 3: "the metadata path itself is not also being removed in this same
commit"). -/
def isBeingRemoved (changes : List StagedChange) (p : String) : Bool :=
  changes.any fun c => c.path == p && isDeleted c.kind

/-- Modelled from the spec: step 2 of the invariant checker (section 4.3).
For each staged content path being added or modified whose paired metadata
path is not present in the post-stage tree, a `MissingMetadata` violation. -/
def missingPart (changes : List StagedChange) (tree : List String) :
    List Violation :=
  changes.filterMap fun c =>
    if isAddOrMod c.kind = true ∧ classify c.path = Category.Content ∧
        postTreeHas tree (metaOf c.path) = false
    then some ⟨c.path, ViolationKind.MissingMetadata⟩
    else none

/-- Modelled from the spec: step 3 of the invariant checker (section 4.3).
For each metadata path present in the post-stage tree whose paired content
path is absent, unless the metadata path is itself being removed or its
content path is classified `Ignored`, a `RedundantMetadata` violation. -/
def redundantPart (changes : List StagedChange) (tree : List String) :
    List Violation :=
  tree.filterMap fun m =>
    if classify m = Category.Metadata ∧
        classify (contentOf m) ≠ Category.Ignored ∧
        postTreeHas tree (contentOf m) = false ∧
        isBeingRemoved changes m = false
    then some ⟨m, ViolationKind.RedundantMetadata⟩
    else none

/-- Modelled from the spec: the invariant checker (section 4.3), a pure
function from the staged-change list and the post-stage working tree to the
list of violations, in stable first-seen order. -/
def check (changes : List StagedChange) (tree : List String) :
    List Violation :=
  missingPart changes tree ++ redundantPart changes tree

/-- Modelled from the spec: the reporter's exit-code mapping (section 4.4):
`0` when the violation list is empty, `1` otherwise. -/
def exitCode (vs : List Violation) : Nat := if vs.isEmpty then 0 else 1

/-- Modelled from the spec: the reporter's fixed per-violation diagnostic
line templates (section 6). -/
def reportLine (v : Violation) : String :=
  match v.kind with
  | ViolationKind.MissingMetadata => "Error: Missing meta file " ++ v.path
  | ViolationKind.RedundantMetadata => "Error: Redudant meta file " ++ v.path

/-- Modelled from the spec: the diagnostic lines written to the error
stream, one per violation (section 4.4). -/
def reportLines (vs : List Violation) : List String := vs.map reportLine

/-! ## Installer embedding (`scripts/install-hooks.py`) -/

/-- Lookup in an association list keyed by strings. -/
def getAssoc {α : Type} : List (String × α) → String → Option α
  | [], _ => none
  | e :: es, k => if e.1 == k then some e.2 else getAssoc es k

/-- Update-or-insert in an association list keyed by strings. -/
def setAssoc {α : Type} : List (String × α) → String → α → List (String × α)
  | [], k, v => [(k, v)]
  | e :: es, k, v => if e.1 == k then (k, v) :: es else e :: setAssoc es k v

/-- Filesystem state seen by the installer: file contents, existing
directories, and permission modes. -/
structure FS where
  files : List (String × String)
  dirs : List String
  modes : List (String × Nat)
deriving DecidableEq, Repr

/-- Whether a regular file exists at the path. -/
def FS.fileExists (fs : FS) (p : String) : Bool := (getAssoc fs.files p).isSome

/-- `os.path.exists`: a file or a directory exists at the path. -/
def FS.pathExists (fs : FS) (p : String) : Bool :=
  fs.fileExists p || fs.dirs.contains p

/-- The content of the file at the path (empty if absent, as after an
`"a+"` open of a fresh file). -/
def FS.read (fs : FS) (p : String) : String := (getAssoc fs.files p).getD ""

/-- Opening a path in append mode and writing `c`: the previous content is
kept and `c` is written after it; a missing file is created. -/
def FS.appendWrite (fs : FS) (p c : String) : FS :=
  { fs with files := setAssoc fs.files p (fs.read p ++ c) }

/-- `os.chmod`. -/
def FS.chmod (fs : FS) (p : String) (m : Nat) : FS :=
  { fs with modes := setAssoc fs.modes p m }

/-- The permission mode recorded for the path, if any. -/
def FS.mode (fs : FS) (p : String) : Option Nat := getAssoc fs.modes p

/-- Embeds `write_file` of `scripts/install-hooks.py`: skip when the
destination exists and already contains the content; otherwise open the
destination in `"a+"` mode, append the content, and on non-Windows systems
(`os.name != 'nt'`) chmod it to `0o755`. -/
def write_file (isWindows : Bool) (path content : String) (fs : FS) : FS :=
  if fs.fileExists path && containsSub content (fs.read path) then fs
  else
    let fs1 := fs.appendWrite path content
    if isWindows then fs1 else fs1.chmod path 0o755

/-- Embeds `read_file` of `scripts/install-hooks.py`: return the file's
content, or fail (Python raises `OSError`) when the file is absent. -/
def read_file (fs : FS) (path : String) : Except String String :=
  if fs.fileExists path then Except.ok (fs.read path)
  else Except.error ("No such file or directory: " ++ path)

/-- `os.path.join` for the shapes used by the installer (the second
component is always a relative path). -/
def joinPath (a b : String) : String :=
  if "/".data.isSuffixOf a.data then a ++ b else a ++ "/" ++ b

/-- Destination path of a hook inside the repository, as computed by the
installer: `join(join(repo, ".git/"), "hooks/", hook)`. -/
def hookDest (repoRoot hook : String) : String :=
  joinPath (joinPath (joinPath repoRoot ".git/") "hooks/") hook

/-- Embeds the body of `scripts/install-hooks.py` after the repository path
prompt: the two existence assertions, the three `read_file` calls on the
script's own directory, and the three `write_file` calls, in source order.
Any raised exception is surfaced as `Except.error` with its message. -/
def installBody (isWindows : Bool) (scriptDir repoRoot : String) (fs : FS) :
    Except String FS :=
  if fs.pathExists repoRoot = false then
    Except.error ("This folder does not exist: " ++ repoRoot)
  else if fs.pathExists (joinPath repoRoot ".git/") = false then
    Except.error ("This folder is not the root of a git repository: " ++
      repoRoot)
  else do
    let pc ← read_file fs (joinPath scriptDir "post-checkout")
    let pm ← read_file fs (joinPath scriptDir "post-merge")
    let pcm ← read_file fs (joinPath scriptDir "pre-commit")
    let fs1 := write_file isWindows (hookDest repoRoot "post-checkout") pc fs
    let fs2 := write_file isWindows (hookDest repoRoot "post-merge") pm fs1
    let fs3 := write_file isWindows (hookDest repoRoot "pre-commit") pcm fs2
    return fs3

/-- Embeds the top level of `scripts/install-hooks.py`: the whole body runs
inside one `try`/`except Exception` handler that prints
`Error occurred: ` plus the message, after which control falls through to
the final exit prompt and the process ends with exit status `0`. Result:
final filesystem, the tail of the printed log, and the process exit
status. -/
def installMain (isWindows : Bool) (scriptDir repoRoot : String) (fs : FS) :
    FS × List String × Nat :=
  match installBody isWindows scriptDir repoRoot fs with
  | Except.ok fs2 => (fs2, ["Done."], 0)
  | Except.error msg => (fs, ["Error occurred: " ++ msg], 0)

/-- Concrete filesystem used to witness the installer theorems: a script
directory holding the three hook sources and a repository with a `.git`
directory. -/
def fsW : FS :=
  ⟨[("/s/post-checkout", "A"), ("/s/post-merge", "B"),
    ("/s/pre-commit", "C")],
   ["/r", "/r/.git/"], []⟩

end UnityGitHooks

namespace UnityGitHooks

/-! ## Basic lemmas about the checker -/

theorem splitPath_ne_nil (cs : List Char) : splitPath cs ≠ [] := by
  cases cs with
  | nil => simp [splitPath]
  | cons c cs =>
    unfold splitPath
    split
    · simp
    · split <;> simp

theorem mem_getLastD {α : Type} (l : List α) (d : α) (h : l ≠ []) :
    l.getLastD d ∈ l := by
  cases l with
  | nil => exact absurd rfl h
  | cons a t =>
    rw [List.getLastD_cons]
    exact List.getLastD_mem_cons t a

theorem isHidden_of_lastSeg (p : String) (h : segHidden (lastSeg p) = true) :
    isHidden p = true := by
  unfold isHidden
  exact List.any_eq_true.mpr
    ⟨lastSeg p, mem_getLastD _ _ (splitPath_ne_nil p.data), h⟩

theorem classify_of_hidden (p : String) (h : isHidden p = true) :
    classify p = Category.Ignored := by
  simp [classify, h]

/-- Claim C1 — the reporter's exit status is `0` exactly when the computed
violation list is empty and `1` exactly when it is non-empty, so a commit
with at least one pairing violation is blocked and one with none proceeds. -/
theorem exit_status_zero_iff_no_violation (changes : List StagedChange)
    (tree : List String) :
    (exitCode (check changes tree) = 0 ↔ check changes tree = []) ∧
    (exitCode (check changes tree) = 1 ↔ check changes tree ≠ []) := by
  unfold exitCode
  cases h : check changes tree <;> simp

/-- Claim C2 — whenever a stale metadata path is still present in the
post-stage tree (as after a directory rename that moved the content but not
its sidecar), its paired content path is gone, and the metadata path is not
itself being removed by the staged changes, the checker emits a
`RedundantMetadata` violation naming that metadata path and the exit status
is `1`. -/
theorem rename_orphan_redundant (changes : List StagedChange)
    (tree : List String) (m : String)
    (hmem : m ∈ tree) (hmeta : classify m = Category.Metadata)
    (hcat : classify (contentOf m) ≠ Category.Ignored)
    (habs : postTreeHas tree (contentOf m) = false)
    (hkept : isBeingRemoved changes m = false) :
    Violation.mk m ViolationKind.RedundantMetadata ∈ check changes tree ∧
    exitCode (check changes tree) = 1 := by
  have hr : Violation.mk m ViolationKind.RedundantMetadata ∈
      redundantPart changes tree := by
    unfold redundantPart
    refine List.mem_filterMap.mpr ⟨m, hmem, ?_⟩
    rw [if_pos ⟨hmeta, hcat, habs, hkept⟩]
  have hc : Violation.mk m ViolationKind.RedundantMetadata ∈
      check changes tree := List.mem_append_right _ hr
  refine ⟨hc, ?_⟩
  have hne : check changes tree ≠ [] := List.ne_nil_of_mem hc
  unfold exitCode
  rw [if_neg (by simpa [List.isEmpty_iff] using hne)]

/-- Witness for C2: the directory-rename scenario of the test suite
(`Assets/dir` renamed to `Assets/dir-new` while `Assets/dir.meta` stays). -/
theorem rename_orphan_redundant_witness :
    Violation.mk "Assets/dir.meta" ViolationKind.RedundantMetadata ∈
      check [⟨"Assets/dir/.gitkeep", ChangeKind.Deleted⟩,
             ⟨"Assets/dir-new/.gitkeep", ChangeKind.Added⟩]
        ["Assets/dir.meta", "Assets/dir-new/.gitkeep"] ∧
    exitCode (check [⟨"Assets/dir/.gitkeep", ChangeKind.Deleted⟩,
             ⟨"Assets/dir-new/.gitkeep", ChangeKind.Added⟩]
        ["Assets/dir.meta", "Assets/dir-new/.gitkeep"]) = 1 :=
  rename_orphan_redundant _ _ _ (by decide) (by decide) (by decide)
    (by decide) (by decide)

/-- Claim C3 — a staged content file whose final path segment begins with a
dot never produces a `MissingMetadata` violation, and when such a hidden
file is the only staged change (on top of a violation-free tree) the exit
status is `0`. -/
theorem hidden_exemption (p : String)
    (hdot : segHidden (lastSeg p) = true) :
    (∀ changes tree,
        Violation.mk p ViolationKind.MissingMetadata ∉ check changes tree) ∧
    (∀ base, check [] base = [] →
        exitCode (check [⟨p, ChangeKind.Added⟩] (base ++ [p])) = 0) := by
  have hign : classify p = Category.Ignored :=
    classify_of_hidden p (isHidden_of_lastSeg p hdot)
  constructor
  · intro changes tree hmem
    rcases List.mem_append.mp hmem with h | h
    · unfold missingPart at h
      rcases List.mem_filterMap.mp h with ⟨c, _, hc⟩
      split at hc
      case isTrue hcond =>
        have hpath : c.path = p := congrArg Violation.path (Option.some.inj hc)
        have h2 := hcond.2.1
        rw [hpath, hign] at h2
        exact Category.noConfusion h2
      case isFalse => exact Option.noConfusion hc
    · unfold redundantPart at h
      rcases List.mem_filterMap.mp h with ⟨m, _, hm⟩
      split at hm
      · have hk := congrArg Violation.kind (Option.some.inj hm)
        exact ViolationKind.noConfusion hk
      · exact Option.noConfusion hm
  · intro base hbase
    have hred0 : redundantPart [] base = [] := by
      simpa [check, missingPart] using hbase
    have hmiss : missingPart [⟨p, ChangeKind.Added⟩] (base ++ [p]) = [] := by
      unfold missingPart
      rw [List.filterMap_eq_nil_iff]
      intro c hc
      have hcp : c = ⟨p, ChangeKind.Added⟩ := by simpa using hc
      subst hcp
      rw [if_neg]
      rintro ⟨-, h2, -⟩
      rw [hign] at h2
      exact Category.noConfusion h2
    have hred : redundantPart [⟨p, ChangeKind.Added⟩] (base ++ [p]) = [] := by
      unfold redundantPart
      rw [List.filterMap_eq_nil_iff]
      intro m hm
      rcases List.mem_append.mp hm with hmb | hmp
      · have h0 := List.filterMap_eq_nil_iff.mp
          (by unfold redundantPart at hred0; exact hred0) m hmb
        rw [if_neg]
        rintro ⟨hA, hB, hC, -⟩
        have hC0 : postTreeHas base (contentOf m) = false := by
          unfold postTreeHas at hC ⊢
          rw [List.any_append] at hC
          exact (Bool.or_eq_false_iff.mp hC).1
        simp only [] at h0
        rw [if_pos ⟨hA, hB, hC0, rfl⟩] at h0
        exact Option.noConfusion h0
      · have hp : m = p := by simpa using hmp
        subst hp
        rw [if_neg]
        rintro ⟨hA, -, -, -⟩
        rw [hign] at hA
        exact Category.noConfusion hA
    unfold check
    rw [hmiss, hred]
    rfl

/-- Witness for C3: the hidden-file scenario of the test suite
(`Assets/.assets` staged alone in a fresh repository). -/
theorem hidden_exemption_witness :
    segHidden (lastSeg "Assets/.assets") = true ∧
    Violation.mk "Assets/.assets" ViolationKind.MissingMetadata ∉
      check [⟨"Assets/.assets", ChangeKind.Added⟩] ["Assets/.assets"] ∧
    exitCode (check [⟨"Assets/.assets", ChangeKind.Added⟩]
      ([] ++ ["Assets/.assets"])) = 0 :=
  ⟨by decide,
   (hidden_exemption "Assets/.assets" (by decide)).1 _ _,
   (hidden_exemption "Assets/.assets" (by decide)).2 [] (by decide)⟩

/-- Claim C4 — every `MissingMetadata` violation the checker reports yields
one diagnostic line of the fixed template `Error: Missing meta file`
followed by the offending content path. -/
theorem missing_meta_message (changes : List StagedChange)
    (tree : List String) (v : Violation) (hv : v ∈ check changes tree)
    (hk : v.kind = ViolationKind.MissingMetadata) :
    reportLine v = "Error: Missing meta file " ++ v.path ∧
    reportLine v ∈ reportLines (check changes tree) := by
  constructor
  · unfold reportLine
    rw [hk]
  · exact List.mem_map_of_mem _ hv

/-- Witness for C4: the missing-metadata scenario of the test suite
(`Assets/assets` staged without `Assets/assets.meta`). -/
theorem missing_meta_message_witness :
    (⟨"Assets/assets", ViolationKind.MissingMetadata⟩ : Violation) ∈
      check [⟨"Assets/assets", ChangeKind.Added⟩] ["Assets/assets"] ∧
    reportLine ⟨"Assets/assets", ViolationKind.MissingMetadata⟩ =
      "Error: Missing meta file " ++ "Assets/assets" ∧
    reportLine ⟨"Assets/assets", ViolationKind.MissingMetadata⟩ ∈
      reportLines (check [⟨"Assets/assets", ChangeKind.Added⟩]
        ["Assets/assets"]) :=
  ⟨by decide, missing_meta_message _ _ _ (by decide) rfl⟩

/-- Claim C5 — every `RedundantMetadata` violation the checker reports
yields one diagnostic line of the fixed (deliberately misspelled) template
`Error: Redudant meta file` followed by the offending metadata path. -/
theorem redundant_meta_message (changes : List StagedChange)
    (tree : List String) (v : Violation) (hv : v ∈ check changes tree)
    (hk : v.kind = ViolationKind.RedundantMetadata) :
    reportLine v = "Error: Redudant meta file " ++ v.path ∧
    reportLine v ∈ reportLines (check changes tree) := by
  constructor
  · unfold reportLine
    rw [hk]
  · exact List.mem_map_of_mem _ hv

/-- Witness for C5: the directory-rename scenario of the test suite, where
`Assets/dir.meta` is reported as redundant. -/
theorem redundant_meta_message_witness :
    (⟨"Assets/dir.meta", ViolationKind.RedundantMetadata⟩ : Violation) ∈
      check [⟨"Assets/dir/.gitkeep", ChangeKind.Deleted⟩,
             ⟨"Assets/dir-new/.gitkeep", ChangeKind.Added⟩]
        ["Assets/dir.meta", "Assets/dir-new/.gitkeep"] ∧
    reportLine ⟨"Assets/dir.meta", ViolationKind.RedundantMetadata⟩ =
      "Error: Redudant meta file " ++ "Assets/dir.meta" ∧
    reportLine ⟨"Assets/dir.meta", ViolationKind.RedundantMetadata⟩ ∈
      reportLines (check [⟨"Assets/dir/.gitkeep", ChangeKind.Deleted⟩,
             ⟨"Assets/dir-new/.gitkeep", ChangeKind.Added⟩]
        ["Assets/dir.meta", "Assets/dir-new/.gitkeep"]) :=
  ⟨by decide, redundant_meta_message _ _ _ (by decide) rfl⟩

/-! ## Lemmas about the installer embedding -/

theorem isPrefixOf_self (l : List Char) : l.isPrefixOf l = true := by
  induction l with
  | nil => rfl
  | cons c cs ih => simp [List.isPrefixOf, ih]

theorem hasSub_append_self (n a : List Char) : hasSub n (a ++ n) = true := by
  induction a with
  | nil =>
    cases n with
    | nil => rfl
    | cons c cs => simp [hasSub, isPrefixOf_self]
  | cons x a ih => simp [hasSub, ih]

theorem getAssoc_set_self {α : Type} (l : List (String × α)) (k : String)
    (v : α) : getAssoc (setAssoc l k v) k = some v := by
  induction l with
  | nil => simp [setAssoc, getAssoc]
  | cons e es ih =>
    unfold setAssoc
    split
    · simp [getAssoc]
    · case isFalse h =>
        unfold getAssoc
        rw [if_neg h]
        exact ih

theorem getAssoc_set_other {α : Type} (l : List (String × α)) (k q : String)
    (v : α) (h : k ≠ q) : getAssoc (setAssoc l k v) q = getAssoc l q := by
  induction l with
  | nil => simp [setAssoc, getAssoc, h]
  | cons e es ih =>
    unfold setAssoc
    split
    · case isTrue he =>
        have he' : e.1 = k := eq_of_beq he
        simp [getAssoc, he', h]
    · case isFalse he =>
        by_cases hq : (e.1 == q) = true
        · simp [getAssoc, hq]
        · simp [getAssoc, hq, ih]

theorem appendWrite_read_self (fs : FS) (p c : String) :
    (fs.appendWrite p c).read p = fs.read p ++ c := by
  simp [FS.appendWrite, FS.read, getAssoc_set_self]

theorem write_file_contains_self (w : Bool) (p c : String) (fs : FS) :
    containsSub c ((write_file w p c fs).read p) = true := by
  unfold write_file
  split
  case isTrue h =>
    rw [Bool.and_eq_true] at h
    exact h.2
  case isFalse h =>
    cases w <;>
      simp [FS.chmod, FS.read, FS.appendWrite, getAssoc_set_self,
        containsSub, hasSub_append_self]

theorem write_file_fileExists_self (w : Bool) (p c : String) (fs : FS) :
    (write_file w p c fs).fileExists p = true := by
  unfold write_file
  split
  case isTrue h =>
    rw [Bool.and_eq_true] at h
    exact h.1
  case isFalse h =>
    cases w <;>
      simp [FS.chmod, FS.fileExists, FS.appendWrite, getAssoc_set_self]

theorem write_file_fileExists_other (w : Bool) (p c : String) (fs : FS)
    (q : String) (hne : p ≠ q) :
    (write_file w p c fs).fileExists q = fs.fileExists q := by
  unfold write_file
  split
  · rfl
  · cases w <;>
      simp [FS.chmod, FS.fileExists, FS.appendWrite,
        getAssoc_set_other _ _ _ _ hne]

theorem write_file_read_other (w : Bool) (p c : String) (fs : FS)
    (q : String) (hne : p ≠ q) :
    (write_file w p c fs).read q = fs.read q := by
  unfold write_file
  split
  · rfl
  · cases w <;>
      simp [FS.chmod, FS.read, FS.appendWrite,
        getAssoc_set_other _ _ _ _ hne]

theorem joinPath_inj_right (a b c : String) (h : joinPath a b = joinPath a c) :
    b = c := by
  unfold joinPath at h
  split at h <;>
    · have hd := congrArg String.data h
      simp only [String.data_append] at hd
      exact String.ext (List.append_cancel_left hd)

theorem hookDest_ne (r h₁ h₂ : String) (hne : h₁ ≠ h₂) :
    hookDest r h₁ ≠ hookDest r h₂ :=
  fun h => hne (joinPath_inj_right _ _ _ h)

/-- Claim C6 — when the destination hook file already exists and its
current content already contains the hook content being installed,
`write_file` skips the hook and leaves the filesystem (in particular the
destination file's content) unchanged. -/
theorem write_file_skip_identical (isWindows : Bool) (path content : String)
    (fs : FS) (hex : fs.fileExists path = true)
    (hsub : containsSub content (fs.read path) = true) :
    write_file isWindows path content fs = fs := by
  unfold write_file
  rw [if_pos (by simp [hex, hsub])]

/-- Witness for C6: installing content `b` into a file that already holds
`abc`. -/
theorem write_file_skip_identical_witness :
    (⟨[("h", "abc")], [], []⟩ : FS).fileExists "h" = true ∧
    containsSub "b" ((⟨[("h", "abc")], [], []⟩ : FS).read "h") = true ∧
    write_file false "h" "b" ⟨[("h", "abc")], [], []⟩ =
      ⟨[("h", "abc")], [], []⟩ :=
  ⟨by decide, by decide,
   write_file_skip_identical false "h" "b" _ (by decide) (by decide)⟩

/-- Claim C7 — when the repository and its `.git` directory exist and the
three hook sources are readable from the installer's script directory, the
installer succeeds and afterwards, for each of `post-checkout`,
`post-merge` and `pre-commit`, the file at `<repo>/.git/hooks/<hook>`
exists and contains the hook content read from the script directory. -/
theorem installer_places_hooks (isWindows : Bool) (scriptDir repoRoot : String)
    (fs : FS)
    (hroot : fs.pathExists repoRoot = true)
    (hgit : fs.pathExists (joinPath repoRoot ".git/") = true)
    (h1 : fs.fileExists (joinPath scriptDir "post-checkout") = true)
    (h2 : fs.fileExists (joinPath scriptDir "post-merge") = true)
    (h3 : fs.fileExists (joinPath scriptDir "pre-commit") = true) :
    ∃ fs2, installBody isWindows scriptDir repoRoot fs = Except.ok fs2 ∧
      ∀ hook ∈ ["post-checkout", "post-merge", "pre-commit"],
        fs2.fileExists (hookDest repoRoot hook) = true ∧
        containsSub (fs.read (joinPath scriptDir hook))
          (fs2.read (hookDest repoRoot hook)) = true := by
  have hb : installBody isWindows scriptDir repoRoot fs =
      Except.ok (write_file isWindows (hookDest repoRoot "pre-commit")
        (fs.read (joinPath scriptDir "pre-commit"))
        (write_file isWindows (hookDest repoRoot "post-merge")
          (fs.read (joinPath scriptDir "post-merge"))
          (write_file isWindows (hookDest repoRoot "post-checkout")
            (fs.read (joinPath scriptDir "post-checkout")) fs))) := by
    unfold installBody
    rw [if_neg (by rw [hroot]; simp), if_neg (by rw [hgit]; simp)]
    unfold read_file
    rw [if_pos h1, if_pos h2, if_pos h3]
    rfl
  refine ⟨_, hb, ?_⟩
  have ne12 : hookDest repoRoot "post-checkout" ≠
      hookDest repoRoot "post-merge" := hookDest_ne _ _ _ (by decide)
  have ne13 : hookDest repoRoot "post-checkout" ≠
      hookDest repoRoot "pre-commit" := hookDest_ne _ _ _ (by decide)
  have ne23 : hookDest repoRoot "post-merge" ≠
      hookDest repoRoot "pre-commit" := hookDest_ne _ _ _ (by decide)
  intro hook hmem
  simp only [List.mem_cons, List.not_mem_nil, or_false] at hmem
  rcases hmem with rfl | rfl | rfl
  · constructor
    · rw [write_file_fileExists_other _ _ _ _ _ (Ne.symm ne13),
        write_file_fileExists_other _ _ _ _ _ (Ne.symm ne12)]
      exact write_file_fileExists_self _ _ _ _
    · rw [write_file_read_other _ _ _ _ _ (Ne.symm ne13),
        write_file_read_other _ _ _ _ _ (Ne.symm ne12)]
      exact write_file_contains_self _ _ _ _
  · constructor
    · rw [write_file_fileExists_other _ _ _ _ _ (Ne.symm ne23)]
      exact write_file_fileExists_self _ _ _ _
    · rw [write_file_read_other _ _ _ _ _ (Ne.symm ne23)]
      exact write_file_contains_self _ _ _ _
  · exact ⟨write_file_fileExists_self _ _ _ _,
      write_file_contains_self _ _ _ _⟩

/-- Witness for C7: a filesystem with the three hook sources under `/s` and
a repository at `/r` with a `.git` directory. -/
theorem installer_places_hooks_witness :
    fsW.pathExists "/r" = true ∧
    (∃ fs2, installBody false "/s" "/r" fsW = Except.ok fs2 ∧
      ∀ hook ∈ ["post-checkout", "post-merge", "pre-commit"],
        fs2.fileExists (hookDest "/r" hook) = true ∧
        containsSub (fsW.read (joinPath "/s" hook))
          (fs2.read (hookDest "/r" hook)) = true) :=
  ⟨by decide,
   installer_places_hooks false "/s" "/r" fsW (by decide) (by decide)
     (by decide) (by decide) (by decide)⟩

/-- Claim C8 — on a non-Windows target, whenever `write_file` takes the
append branch (the skip condition fails) it sets the destination file's
permission mode to `0o755`, so the installed hook is marked executable. -/
theorem write_file_sets_exec_mode (path content : String) (fs : FS)
    (hns : (fs.fileExists path && containsSub content (fs.read path)) =
      false) :
    (write_file false path content fs).mode path = some 0o755 := by
  unfold write_file
  rw [if_neg (by rw [hns]; simp)]
  simp [FS.chmod, FS.mode, FS.appendWrite, getAssoc_set_self]

/-- Witness for C8: installing content `x` onto an empty filesystem. -/
theorem write_file_sets_exec_mode_witness :
    ((⟨[], [], []⟩ : FS).fileExists "h" &&
      containsSub "x" ((⟨[], [], []⟩ : FS).read "h")) = false ∧
    (write_file false "h" "x" ⟨[], [], []⟩).mode "h" = some 0o755 :=
  ⟨by decide, write_file_sets_exec_mode "h" "x" _ (by decide)⟩

/-- Claim C9 — `write_file` opens the destination in append mode: for a
pre-existing destination that does not already contain the hook content,
the previous content is preserved unchanged and the hook content is
appended after it; the destination is never truncated or overwritten. -/
theorem write_file_appends_preserving (isWindows : Bool)
    (path content : String) (fs : FS) (hex : fs.fileExists path = true)
    (hnc : containsSub content (fs.read path) = false) :
    (write_file isWindows path content fs).read path =
      fs.read path ++ content := by
  unfold write_file
  rw [if_neg (by rw [hnc]; simp)]
  cases isWindows <;>
    simp [FS.chmod, FS.read, FS.appendWrite, getAssoc_set_self]

/-- Witness for C9: appending content `xy` to a file currently holding
`abc`. -/
theorem write_file_appends_preserving_witness :
    (⟨[("h", "abc")], [], []⟩ : FS).fileExists "h" = true ∧
    containsSub "xy" ((⟨[("h", "abc")], [], []⟩ : FS).read "h") = false ∧
    (write_file false "h" "xy" ⟨[("h", "abc")], [], []⟩).read "h" =
      (⟨[("h", "abc")], [], []⟩ : FS).read "h" ++ "xy" :=
  ⟨by decide, by decide,
   write_file_appends_preserving false "h" "xy" _ (by decide) (by decide)⟩

/-- Claim C10 — every failure of the installer body (including the two
assertion failures on the repository path) is caught by the single
top-level handler, which logs `Error occurred: ` plus the message and falls
through to the exit prompt, so the installer process always terminates with
exit status `0`. -/
theorem installer_exit_zero (isWindows : Bool) (scriptDir repoRoot : String)
    (fs : FS) :
    (installMain isWindows scriptDir repoRoot fs).2.2 = 0 ∧
    ∀ msg, installBody isWindows scriptDir repoRoot fs = Except.error msg →
      (installMain isWindows scriptDir repoRoot fs).2.1 =
        ["Error occurred: " ++ msg] := by
  cases h : installBody isWindows scriptDir repoRoot fs with
  | ok fs2 =>
    refine ⟨by simp [installMain, h], ?_⟩
    intro msg hmsg
    exact Except.noConfusion hmsg
  | error m =>
    refine ⟨by simp [installMain, h], ?_⟩
    intro msg hmsg
    have hm : m = msg := Except.error.inj hmsg
    subst hm
    simp [installMain, h]

/-- Witness for C10: running the installer against a filesystem on which
the requested repository root does not exist. -/
theorem installer_exit_zero_witness :
    (installMain false "/s" "/r" ⟨[], [], []⟩).2.2 = 0 ∧
    (installMain false "/s" "/r" ⟨[], [], []⟩).2.1 =
      ["Error occurred: " ++ ("This folder does not exist: " ++ "/r")] :=
  ⟨(installer_exit_zero false "/s" "/r" ⟨[], [], []⟩).1,
   (installer_exit_zero false "/s" "/r" ⟨[], [], []⟩).2 _ rfl⟩

end UnityGitHooks
